import Mathlib

/-!
Shallow embedding of the WikipediaGameBot core (src/main.py): the cache-backed,
retry/backoff link fetcher `get_links_from_page`, and the iterative exploration
loop `explore_path` that consumes oracle decisions, validates them and advances.
The oracle (Gemini) and the remote graph source are external collaborators and
are modelled as function parameters.
-/

deriving instance DecidableEq for Except

/-- Number of retries for 429 responses (`MAX_RETRIES = 5` in main.py). -/
def maxRetries : Nat := 5

/-- Status of one HTTP response from the graph source: 200, 429, or anything
else (which `response.raise_for_status()` turns into an error). -/
inductive HttpStatus where
  | ok
  | throttled
  | other
deriving DecidableEq, Repr

/-- One HTTP response as the fetcher observes it: its status, whether its body
parses as JSON (`await response.json()`), the link titles carried in the
payload, and whether a pagination continuation token is present. -/
structure HttpResponse where
  status : HttpStatus
  parseOk : Bool
  links : List String
  hasContinue : Bool
deriving DecidableEq, Repr

/-- Errors `get_links_from_page` can raise: the `Exception("Max retries
exceeded ...")` after the retry ceiling, `raise_for_status()` on a non-200
non-429 status, and the re-raised JSON decoding error. -/
inductive FetchError where
  | maxRetriesExceeded
  | httpError
  | parseError
deriving DecidableEq, Repr

/-- Run-scoped fetcher state: the number of HTTP requests issued so far, the
backoff sleeps performed (in seconds, in order), and the cache mapping page
titles to their already-fetched filtered link lists. -/
structure FetchState where
  requests : Nat
  waits : List Nat
  cache : List (String × List String)
deriving DecidableEq, Repr

/-- Fetcher state at the start of a run: no requests, no waits, empty cache. -/
def initFetchState : FetchState := ⟨0, [], []⟩

/-- Inner retry loop of `get_links_from_page` (`while retry_count < MAX_RETRIES`),
for a single logical HTTP exchange. `remaining` is `MAX_RETRIES - retry_count`
and `attempt` is `retry_count`; on a 429 the code increments `retry_count` and
sleeps `2 ** retry_count`, i.e. `2 ^ (attempt + 1)`, before reissuing the
request. The environment `env` gives the response to the i-th request of the
run; `reqIdx` counts requests issued, `waits` records the sleeps. When the
retries are exhausted the `else` clause of the loop raises. -/
def retryLoop (env : Nat → HttpResponse) :
    Nat → Nat → Nat → List Nat → Except FetchError HttpResponse × Nat × List Nat
  | 0, _, reqIdx, waits => (Except.error FetchError.maxRetriesExceeded, reqIdx, waits)
  | remaining + 1, attempt, reqIdx, waits =>
    let resp := env reqIdx
    match resp.status with
    | HttpStatus.throttled =>
        retryLoop env remaining (attempt + 1) (reqIdx + 1) (waits ++ [2 ^ (attempt + 1)])
    | HttpStatus.other => (Except.error FetchError.httpError, reqIdx + 1, waits)
    | HttpStatus.ok =>
        if resp.parseOk then (Except.ok resp, reqIdx + 1, waits)
        else (Except.error FetchError.parseError, reqIdx + 1, waits)

/-- One HTTP exchange with backoff: the retry loop entered with a fresh
`retry_count = 0`, as the code does for every pagination page. -/
def singleExchange (env : Nat → HttpResponse) (reqIdx : Nat) (waits : List Nat) :
    Except FetchError HttpResponse × Nat × List Nat :=
  retryLoop env maxRetries 0 reqIdx waits

/-- Accumulation of one page of link titles into the running set
(`links.add(link["title"])` over a Python set: duplicates are dropped). -/
def addLinks (acc : List String) (new : List String) : List String :=
  new.foldl (fun a l => if l ∈ a then a else a ++ [l]) acc

/-- Pagination loop of `get_links_from_page` (`while True`, following the
`continue` token until absent). `fuel` bounds the number of pages so the
recursion is total; `none` means the fuel ran out before the source stopped
returning continuation tokens. -/
def fetchPages (env : Nat → HttpResponse) :
    Nat → Nat → List Nat → List String →
    Option (Except FetchError (List String × Nat × List Nat))
  | 0, _, _, _ => none
  | fuel + 1, reqIdx, waits, acc =>
    match singleExchange env reqIdx waits with
    | (Except.error e, _, _) => some (Except.error e)
    | (Except.ok resp, reqIdx', waits') =>
      let acc' := addLinks acc resp.links
      if resp.hasContinue then fetchPages env fuel reqIdx' waits' acc'
      else some (Except.ok (acc', reqIdx', waits'))

/-- Fixed namespace-prefix denylist of main.py lines 79-81, in source order. -/
def denylist : List String :=
  ["Help:", "Template:", "Wikipedia:", "Catégorie:", "Category:", "Portail:",
   "Aide:", "Modèle:", "Discussion:", "Fichier:", "File:", "Wikipédia:"]

/-- Test that `p` is an initial segment of `c`, over character lists
(`str.startswith(p)`). -/
def isPrefixChars : List Char → List Char → Bool
  | [], _ => true
  | _ :: _, [] => false
  | p :: ps, c :: cs => p = c && isPrefixChars ps cs

/-- A title is dropped when it starts with one of the denylisted prefixes. -/
def isDenylisted (l : String) : Bool :=
  denylist.any (fun p => isPrefixChars p.data l.data)

/-- Modelled from the spec for refutation only: the denylist as the spec
describes it, covering the administrative, talk/discussion, template,
category, file, portal and help namespaces in both primary (English) and
localized forms — which adds the English forms of the talk and portal
namespaces to the source denylist. -/
def specDenylist : List String := denylist ++ ["Talk:", "Portal:"]

/-- Membership of a prefix of the spec-described denylist. -/
def isSpecDenylisted (l : String) : Bool :=
  specDenylist.any (fun p => isPrefixChars p.data l.data)

/-- The fetcher `get_links_from_page`: cache check first (returning the stored
list with no network activity), otherwise paginate, filter the accumulated
titles through the denylist (the source iterates over a copy and removes
matches, which on a duplicate-free list equals a filter), store the filtered
list in the cache and return it. -/
def getLinksFromPage (env : Nat → HttpResponse) (pageTitle : String)
    (st : FetchState) (fuel : Nat) :
    Option (Except FetchError (List String × FetchState)) :=
  match st.cache.lookup pageTitle with
  | some ls => some (Except.ok (ls, st))
  | none =>
    match fetchPages env fuel st.requests st.waits [] with
    | none => none
    | some (Except.error e) => some (Except.error e)
    | some (Except.ok (raw, reqIdx', waits')) =>
      let filtered := raw.filter (fun l => !(isDenylisted l))
      some (Except.ok (filtered,
        { requests := reqIdx', waits := waits',
          cache := st.cache ++ [(pageTitle, filtered)] }))

/-!
The exploration loop `explore_path`. The fetcher and the oracle are total
function parameters (`links` gives the EdgeSet computed for a node — by C7 the
fetcher is a function of the node within a run — and `oracle` maps the
navigation context, i.e. current page, target page, visited history and
candidate links, to the proposed title).
-/

/-- Leading-whitespace removal on a character list. -/
def dropLeadingWs : List Char → List Char
  | [] => []
  | c :: cs => if c.isWhitespace then dropLeadingWs cs else c :: cs

/-- Whitespace stripped from both ends (`str.strip()`). -/
def trimChars (cs : List Char) : List Char :=
  dropLeadingWs ((dropLeadingWs cs.reverse).reverse)

/-- Normalization used only for the termination check:
`current_page.strip().lower().replace(" ", "_")`, rendered over the
character list (the replaced pattern is the single space character). -/
def normalizeTitle (s : String) : String :=
  ⟨((trimChars s.data).map Char.toLower).map (fun c => if c = ' ' then '_' else c)⟩

/-- Explorer state: current page, the path, the visited history, and
instrumentation counting fetcher calls, oracle calls and the printed
diagnostics. -/
structure ExpState where
  currentPage : String
  path : List String
  visited : List String
  oracleCalls : Nat
  fetcherCalls : Nat
  diagnostics : List String
deriving DecidableEq, Repr

/-- Explorer state at the start of a run from `startPage`. -/
def initExpState (startPage : String) : ExpState :=
  { currentPage := startPage, path := [startPage], visited := [startPage],
    oracleCalls := 0, fetcherCalls := 0, diagnostics := [] }

/-- Diagnostic printed when a page has no available links. -/
def noLinksDiag (p : String) : String :=
  "No available links found on page " ++ p ++ ". Stopping search."

/-- Diagnostic printed when the chosen link is not among the available links. -/
def rejectedDiag (l : String) : String :=
  "Chosen link " ++ l ++ " not in available links."

/-- Terminal shape of a run: the target-reached early return, or the loop
running out of iterations (both return the accumulated path; neither raises). -/
inductive Outcome where
  | targetReached
  | maxIterationsReached
deriving DecidableEq, Repr

/-- Result of one loop iteration: `done` is the early return on the target
check, `next` continues the loop with the updated state. There is no error
constructor: a validation failure is repaired locally, never surfaced. -/
inductive StepResult where
  | done : ExpState → StepResult
  | next : ExpState → StepResult
deriving DecidableEq, Repr

/-- The node the explorer advances to: the oracle proposal when it is an exact
element of the candidate list, else the first available link
(`available_links[0]`). -/
def stepChoice (links : String → List String)
    (oracle : String → String → List String → List String → String)
    (target : String) (visited : List String) (cur : String) : String :=
  let ls := links cur
  let proposal := oracle cur target visited ls
  if ls.contains proposal then proposal else ls.headD ""

/-- One iteration of the `for iteration in range(max_iterations)` body:
termination check under normalization, fetch, empty-EdgeSet stall
(`continue`), oracle call, validation with first-element fallback, advance. -/
def exploreStep (links : String → List String)
    (oracle : String → String → List String → List String → String)
    (target : String) (st : ExpState) : StepResult :=
  if normalizeTitle st.currentPage = normalizeTitle target then StepResult.done st
  else
    let ls := links st.currentPage
    if ls = [] then
      StepResult.next { st with
        fetcherCalls := st.fetcherCalls + 1,
        diagnostics := st.diagnostics ++ [noLinksDiag st.currentPage] }
    else
      let proposal := oracle st.currentPage target st.visited ls
      let chosen := if ls.contains proposal then proposal else ls.headD ""
      StepResult.next { st with
        currentPage := chosen,
        path := st.path ++ [chosen],
        visited := st.visited ++ [chosen],
        oracleCalls := st.oracleCalls + 1,
        fetcherCalls := st.fetcherCalls + 1,
        diagnostics := st.diagnostics ++
          (if ls.contains proposal then [] else [rejectedDiag proposal]) }

/-- The exploration loop, driven by the remaining iteration budget. -/
def exploreLoop (links : String → List String)
    (oracle : String → String → List String → List String → String)
    (target : String) : Nat → ExpState → Outcome × ExpState
  | 0, st => (Outcome.maxIterationsReached, st)
  | n + 1, st =>
    match exploreStep links oracle target st with
    | StepResult.done st' => (Outcome.targetReached, st')
    | StepResult.next st' => exploreLoop links oracle target n st'

/-- Entry point `explore_path(start_page, target_page, max_iterations)`. -/
def explore (links : String → List String)
    (oracle : String → String → List String → List String → String)
    (startPage targetPage : String) (maxIterations : Nat) : Outcome × ExpState :=
  exploreLoop links oracle targetPage maxIterations (initExpState startPage)

/-- A continuation `future` is valid from state (`visited`, `cur`) when each
successive element is the accepted node of an iteration: the oracle proposal
when it is in the EdgeSet of the node it extends, else that EdgeSet's first
element, the EdgeSet being nonempty. -/
def validCont (links : String → List String)
    (oracle : String → String → List String → List String → String)
    (target : String) : List String → String → List String → Prop
  | _, _, [] => True
  | visited, cur, c :: rest =>
      links cur ≠ [] ∧ c = stepChoice links oracle target visited cur ∧
      validCont links oracle target (visited ++ [c]) c rest

/-- Every adjacent pair (a, b) of the list satisfies `b ∈ links a`. -/
def pathChainB (links : String → List String) : List String → Bool
  | [] => true
  | [_] => true
  | a :: b :: rest => (links a).contains b && pathChainB links (b :: rest)

/-!
Helper lemmas about the explorer step and loop.
-/

/-- The state after a stalled iteration (empty EdgeSet): a diagnostic is
printed, the fetcher was called, nothing else changes. -/
def stallState (st : ExpState) : ExpState :=
  { st with
    fetcherCalls := st.fetcherCalls + 1,
    diagnostics := st.diagnostics ++ [noLinksDiag st.currentPage] }

/-- The state after an advancing iteration: the accepted node is appended to
path and visited and becomes current; a diagnostic is printed exactly when the
oracle proposal was rejected. -/
def advanceState (links : String → List String)
    (oracle : String → String → List String → List String → String)
    (target : String) (st : ExpState) : ExpState :=
  let ls := links st.currentPage
  let proposal := oracle st.currentPage target st.visited ls
  let chosen := if ls.contains proposal then proposal else ls.headD ""
  { st with
    currentPage := chosen,
    path := st.path ++ [chosen],
    visited := st.visited ++ [chosen],
    oracleCalls := st.oracleCalls + 1,
    fetcherCalls := st.fetcherCalls + 1,
    diagnostics := st.diagnostics ++
      (if ls.contains proposal then [] else [rejectedDiag proposal]) }

lemma advanceState_def (links : String → List String)
    (oracle : String → String → List String → List String → String)
    (target : String) (st : ExpState) :
    advanceState links oracle target st = { st with
      currentPage := stepChoice links oracle target st.visited st.currentPage,
      path := st.path ++ [stepChoice links oracle target st.visited st.currentPage],
      visited := st.visited ++ [stepChoice links oracle target st.visited st.currentPage],
      oracleCalls := st.oracleCalls + 1,
      fetcherCalls := st.fetcherCalls + 1,
      diagnostics := st.diagnostics ++
        (if (links st.currentPage).contains
            (oracle st.currentPage target st.visited (links st.currentPage)) then []
         else [rejectedDiag
            (oracle st.currentPage target st.visited (links st.currentPage))]) } := rfl

lemma exploreStep_eq (links : String → List String)
    (oracle : String → String → List String → List String → String)
    (target : String) (st : ExpState) :
    exploreStep links oracle target st =
      if normalizeTitle st.currentPage = normalizeTitle target then StepResult.done st
      else if links st.currentPage = [] then StepResult.next (stallState st)
      else StepResult.next (advanceState links oracle target st) := by
  simp only [exploreStep, stallState, advanceState]

lemma exploreStep_target {links : String → List String}
    {oracle : String → String → List String → List String → String}
    {target : String} {st : ExpState}
    (h : normalizeTitle st.currentPage = normalizeTitle target) :
    exploreStep links oracle target st = StepResult.done st := by
  rw [exploreStep_eq, if_pos h]

lemma exploreStep_empty {links : String → List String}
    {oracle : String → String → List String → List String → String}
    {target : String} {st : ExpState}
    (h1 : ¬ normalizeTitle st.currentPage = normalizeTitle target)
    (h2 : links st.currentPage = []) :
    exploreStep links oracle target st = StepResult.next (stallState st) := by
  rw [exploreStep_eq, if_neg h1, if_pos h2]

lemma exploreStep_advance {links : String → List String}
    {oracle : String → String → List String → List String → String}
    {target : String} {st : ExpState}
    (h1 : ¬ normalizeTitle st.currentPage = normalizeTitle target)
    (h2 : ¬ links st.currentPage = []) :
    exploreStep links oracle target st =
      StepResult.next (advanceState links oracle target st) := by
  rw [exploreStep_eq, if_neg h1, if_neg h2]

lemma exploreLoop_succ (links : String → List String)
    (oracle : String → String → List String → List String → String)
    (target : String) (n : Nat) (st : ExpState) :
    exploreLoop links oracle target (n + 1) st =
      match exploreStep links oracle target st with
      | StepResult.done st' => (Outcome.targetReached, st')
      | StepResult.next st' => exploreLoop links oracle target n st' := rfl

lemma exploreLoop_path_le (links : String → List String)
    (oracle : String → String → List String → List String → String)
    (target : String) :
    ∀ (n : Nat) (st : ExpState),
      ((exploreLoop links oracle target n st).2.path).length ≤ st.path.length + n := by
  intro n
  induction n with
  | zero => intro st; simp [exploreLoop]
  | succ n ih =>
    intro st
    by_cases hT : normalizeTitle st.currentPage = normalizeTitle target
    · rw [exploreLoop_succ, exploreStep_target hT]
      simp
    · by_cases hE : links st.currentPage = []
      · rw [exploreLoop_succ, exploreStep_empty hT hE]
        refine le_trans (ih (stallState st)) ?_
        simp [stallState]
      · rw [exploreLoop_succ, exploreStep_advance hT hE]
        refine le_trans (ih (advanceState links oracle target st)) ?_
        rw [advanceState_def]
        simp
        omega

lemma exploreLoop_future (links : String → List String)
    (oracle : String → String → List String → List String → String)
    (target : String) :
    ∀ (n : Nat) (st : ExpState), st.visited = st.path →
      ∃ future, (exploreLoop links oracle target n st).2.path = st.path ++ future ∧
        validCont links oracle target st.visited st.currentPage future := by
  intro n
  induction n with
  | zero => intro st _; exact ⟨[], by simp [exploreLoop], trivial⟩
  | succ n ih =>
    intro st hv
    by_cases hT : normalizeTitle st.currentPage = normalizeTitle target
    · refine ⟨[], ?_, trivial⟩
      rw [exploreLoop_succ, exploreStep_target hT]
      simp
    · by_cases hE : links st.currentPage = []
      · rw [exploreLoop_succ, exploreStep_empty hT hE]
        exact ih (stallState st) hv
      · rw [exploreLoop_succ, exploreStep_advance hT hE]
        obtain ⟨f, hf, hvc⟩ := ih (advanceState links oracle target st)
          (by rw [advanceState_def]; simp [hv])
        refine ⟨stepChoice links oracle target st.visited st.currentPage :: f, ?_, ?_⟩
        · rw [hf, advanceState_def]
          simp
        · exact ⟨hE, rfl, hvc⟩

lemma validCont_chain (links : String → List String)
    (oracle : String → String → List String → List String → String)
    (target : String) :
    ∀ (future visited : List String) (cur : String),
      validCont links oracle target visited cur future →
      pathChainB links (cur :: future) = true := by
  intro future
  induction future with
  | nil => intro _ _ _; rfl
  | cons c rest ih =>
    intro visited cur h
    obtain ⟨hne, hc, hrest⟩ := h
    have hmem : (links cur).contains c = true := by
      rw [hc]
      show (links cur).contains
        (if (links cur).contains (oracle cur target visited (links cur)) = true
         then oracle cur target visited (links cur)
         else (links cur).headD "") = true
      by_cases hp : (links cur).contains (oracle cur target visited (links cur)) = true
      · rw [if_pos hp]
        exact hp
      · rw [if_neg hp]
        cases hl : links cur with
        | nil => exact absurd hl hne
        | cons a as => simp [List.contains, List.elem_cons]
    show ((links cur).contains c && pathChainB links (c :: rest)) = true
    rw [hmem, ih (visited ++ [c]) c hrest]
    rfl

/-- C1: every Node in the returned Path after the first element was the node
accepted from the EdgeSet computed for the immediately preceding element:
the oracle proposal when it is a member of that EdgeSet, else the fallback
first element (`validCont`); in particular every element after the first is a
member of the predecessor's EdgeSet (`pathChainB`). -/
theorem c1_path_drawn_from_edgesets (links : String → List String)
    (oracle : String → String → List String → List String → String)
    (s t : String) (N : Nat) :
    ∃ future, (explore links oracle s t N).2.path = s :: future ∧
      validCont links oracle t [s] s future ∧
      pathChainB links ((explore links oracle s t N).2.path) = true := by
  obtain ⟨f, hf, hvc⟩ := exploreLoop_future links oracle t N (initExpState s) rfl
  have hpath : (explore links oracle s t N).2.path = s :: f := by
    show (exploreLoop links oracle t N (initExpState s)).2.path = s :: f
    rw [hf]
    simp [initExpState]
  refine ⟨f, hpath, ?_, ?_⟩
  · exact hvc
  · rw [hpath]
    exact validCont_chain links oracle t f [s] s hvc

/-- C2: when start and target are equal under the normalization rule
(strip, lowercase, spaces to underscores) and the iteration budget is at
least 1, explore returns immediately via the target check with Path =
[start], zero fetcher calls and zero oracle calls. -/
theorem c2_immediate_target (links : String → List String)
    (oracle : String → String → List String → List String → String)
    (s t : String) (N : Nat)
    (hnorm : normalizeTitle s = normalizeTitle t) (hN : 1 ≤ N) :
    explore links oracle s t N = (Outcome.targetReached, initExpState s) ∧
    (explore links oracle s t N).2.path = [s] ∧
    (explore links oracle s t N).2.fetcherCalls = 0 ∧
    (explore links oracle s t N).2.oracleCalls = 0 := by
  obtain ⟨n, rfl⟩ : ∃ n, N = n + 1 := ⟨N - 1, by omega⟩
  have hstep : exploreStep links oracle t (initExpState s) =
      StepResult.done (initExpState s) :=
    exploreStep_target (by simpa [initExpState] using hnorm)
  have hmain : explore links oracle s t (n + 1) =
      (Outcome.targetReached, initExpState s) := by
    rw [explore, exploreLoop_succ, hstep]
  exact ⟨hmain, by rw [hmain]; rfl, by rw [hmain]; rfl, by rw [hmain]; rfl⟩

/-- Witness for C2 at the spec's example `explore("Pizza", "Pizza", 10)`. -/
theorem c2_immediate_target_witness :
    normalizeTitle "Pizza" = normalizeTitle "Pizza" ∧ 1 ≤ 10 ∧
    (explore (fun _ => []) (fun _ _ _ _ => "") "Pizza" "Pizza" 10).2.path = ["Pizza"] ∧
    (explore (fun _ => []) (fun _ _ _ _ => "") "Pizza" "Pizza" 10).2.fetcherCalls = 0 ∧
    (explore (fun _ => []) (fun _ _ _ _ => "") "Pizza" "Pizza" 10).2.oracleCalls = 0 := by
  refine ⟨rfl, by omega, ?_, ?_, ?_⟩
  · exact (c2_immediate_target (fun _ => []) (fun _ _ _ _ => "") "Pizza" "Pizza" 10
      rfl (by omega)).2.1
  · exact (c2_immediate_target (fun _ => []) (fun _ _ _ _ => "") "Pizza" "Pizza" 10
      rfl (by omega)).2.2.1
  · exact (c2_immediate_target (fun _ => []) (fun _ _ _ _ => "") "Pizza" "Pizza" 10
      rfl (by omega)).2.2.2

/-- C3: when the EdgeSet is nonempty and the oracle proposal is not an exact
element of it, the iteration appends the first element of the EdgeSet (in its
materialized order) instead of the proposal and emits the rejection
diagnostic; the result is a normal continuation (`StepResult.next` — the type
has no error alternative, matching the source, which raises nothing on this
branch). -/
theorem c3_fallback_to_first (links : String → List String)
    (oracle : String → String → List String → List String → String)
    (target : String) (st : ExpState)
    (hne : ¬ normalizeTitle st.currentPage = normalizeTitle target)
    (hl : ¬ links st.currentPage = [])
    (hrej : (links st.currentPage).contains
      (oracle st.currentPage target st.visited (links st.currentPage)) = false) :
    exploreStep links oracle target st = StepResult.next { st with
      currentPage := (links st.currentPage).headD "",
      path := st.path ++ [(links st.currentPage).headD ""],
      visited := st.visited ++ [(links st.currentPage).headD ""],
      oracleCalls := st.oracleCalls + 1,
      fetcherCalls := st.fetcherCalls + 1,
      diagnostics := st.diagnostics ++
        [rejectedDiag (oracle st.currentPage target st.visited (links st.currentPage))] } := by
  have hch : stepChoice links oracle target st.visited st.currentPage =
      (links st.currentPage).headD "" := by
    show (if (links st.currentPage).contains
          (oracle st.currentPage target st.visited (links st.currentPage)) = true
        then oracle st.currentPage target st.visited (links st.currentPage)
        else (links st.currentPage).headD "") = (links st.currentPage).headD ""
    rw [if_neg (by rw [hrej]; exact Bool.false_ne_true)]
  rw [exploreStep_advance hne hl, advanceState_def, hch, hrej]
  simp

/-- Witness for C3: from page A toward target T, with EdgeSet [B, C] and an
oracle proposing the absent title Z, the step advances to B and records the
rejection diagnostic. -/
theorem c3_fallback_to_first_witness :
    exploreStep (fun _ => ["B", "C"]) (fun _ _ _ _ => "Z") "T" (initExpState "A") =
      StepResult.next
        { currentPage := "B", path := ["A", "B"], visited := ["A", "B"],
          oracleCalls := 1, fetcherCalls := 1, diagnostics := [rejectedDiag "Z"] } := by
  have h := c3_fallback_to_first (fun _ => ["B", "C"]) (fun _ _ _ _ => "Z") "T"
    (initExpState "A") (by decide) (by decide) (by decide)
  simpa [initExpState] using h

/-- C6: for every start, target and iteration budget N, the returned Path has
length at most N + 1, and the run ends in one of the two ordinary outcomes,
`targetReached` or `maxIterationsReached` (the loop has no raising outcome;
errors can only originate in the collaborators, which are total parameters
here). -/
theorem c6_path_length_bound (links : String → List String)
    (oracle : String → String → List String → List String → String)
    (s t : String) (N : Nat) :
    ((explore links oracle s t N).2.path).length ≤ N + 1 ∧
    ((explore links oracle s t N).1 = Outcome.targetReached ∨
     (explore links oracle s t N).1 = Outcome.maxIterationsReached) := by
  constructor
  · have h := exploreLoop_path_le links oracle t N (initExpState s)
    have h1 : (initExpState s).path.length = 1 := rfl
    rw [h1] at h
    exact le_trans h (by omega)
  · cases h : (explore links oracle s t N).1
    · exact Or.inl rfl
    · exact Or.inr rfl

/-- C8: an iteration whose current node has an empty EdgeSet emits the
diagnostic, calls the fetcher once more, does not call the oracle, does not
append to the Path, leaves the current node unchanged, and consumes one unit
of the iteration budget. -/
theorem c8_empty_edgeset_stall (links : String → List String)
    (oracle : String → String → List String → List String → String)
    (target : String) (st : ExpState) (n : Nat)
    (hne : ¬ normalizeTitle st.currentPage = normalizeTitle target)
    (he : links st.currentPage = []) :
    exploreStep links oracle target st = StepResult.next (stallState st) ∧
    (stallState st).path = st.path ∧
    (stallState st).currentPage = st.currentPage ∧
    (stallState st).visited = st.visited ∧
    (stallState st).oracleCalls = st.oracleCalls ∧
    (stallState st).fetcherCalls = st.fetcherCalls + 1 ∧
    (stallState st).diagnostics = st.diagnostics ++ [noLinksDiag st.currentPage] ∧
    exploreLoop links oracle target (n + 1) st =
      exploreLoop links oracle target n (stallState st) := by
  refine ⟨exploreStep_empty hne he, rfl, rfl, rfl, rfl, rfl, rfl, ?_⟩
  rw [exploreLoop_succ, exploreStep_empty hne he]

/-- Witness for C8 on page A (empty EdgeSet) with target B and budget 3 + 1. -/
theorem c8_empty_edgeset_stall_witness :
    exploreStep (fun _ => ([] : List String)) (fun _ _ _ _ => "") "B" (initExpState "A") =
      StepResult.next (stallState (initExpState "A")) ∧
    (stallState (initExpState "A")).path = (initExpState "A").path ∧
    (stallState (initExpState "A")).currentPage = (initExpState "A").currentPage ∧
    (stallState (initExpState "A")).visited = (initExpState "A").visited ∧
    (stallState (initExpState "A")).oracleCalls = (initExpState "A").oracleCalls ∧
    (stallState (initExpState "A")).fetcherCalls = (initExpState "A").fetcherCalls + 1 ∧
    (stallState (initExpState "A")).diagnostics =
      (initExpState "A").diagnostics ++ [noLinksDiag (initExpState "A").currentPage] ∧
    exploreLoop (fun _ => []) (fun _ _ _ _ => "") "B" (3 + 1) (initExpState "A") =
      exploreLoop (fun _ => []) (fun _ _ _ _ => "") "B" 3 (stallState (initExpState "A")) :=
  c8_empty_edgeset_stall (fun _ => []) (fun _ _ _ _ => "") "B" (initExpState "A") 3
    (by decide) rfl

/-- C9: once the current node has an empty EdgeSet and is not the target under
normalization, every remaining iteration stalls on the same node (the EdgeSet
function is per-node deterministic, as the cache makes it within a run): for
any remaining budget the loop ends by exhaustion with the Path and the
current node exactly as they were at the first stall. -/
theorem c9_stall_is_absorbing (links : String → List String)
    (oracle : String → String → List String → List String → String)
    (target : String) :
    ∀ (n : Nat) (st : ExpState),
      links st.currentPage = [] →
      ¬ normalizeTitle st.currentPage = normalizeTitle target →
      (exploreLoop links oracle target n st).1 = Outcome.maxIterationsReached ∧
      (exploreLoop links oracle target n st).2.path = st.path ∧
      (exploreLoop links oracle target n st).2.currentPage = st.currentPage := by
  intro n
  induction n with
  | zero => intro st _ _; exact ⟨rfl, rfl, rfl⟩
  | succ n ih =>
    intro st he hne
    rw [exploreLoop_succ, exploreStep_empty hne he]
    exact ih (stallState st) he hne

/-- Witness for C9 on page A (empty EdgeSet) with target B and budget 7. -/
theorem c9_stall_is_absorbing_witness :
    (exploreLoop (fun _ => ([] : List String)) (fun _ _ _ _ => "") "B" 7 (initExpState "A")).1 =
      Outcome.maxIterationsReached ∧
    (exploreLoop (fun _ => ([] : List String)) (fun _ _ _ _ => "") "B" 7 (initExpState "A")).2.path =
      (initExpState "A").path ∧
    (exploreLoop (fun _ => ([] : List String)) (fun _ _ _ _ => "") "B" 7 (initExpState "A")).2.currentPage =
      (initExpState "A").currentPage :=
  c9_stall_is_absorbing (fun _ => []) (fun _ _ _ _ => "") "B" 7 (initExpState "A")
    rfl (by decide)

/-!
Helper lemmas about the fetcher.
-/

lemma lookup_append_some {β : Type} (l1 l2 : List (String × β)) (a : String) (b : β)
    (h : l1.lookup a = some b) : (l1 ++ l2).lookup a = some b := by
  induction l1 with
  | nil => simp [List.lookup] at h
  | cons kv rest ih =>
    obtain ⟨k, v⟩ := kv
    rw [List.cons_append]
    cases hak : (a == k) with
    | true =>
      simp only [List.lookup, hak] at h ⊢
      exact h
    | false =>
      simp only [List.lookup, hak] at h ⊢
      exact ih h

lemma getLinks_hit {env : Nat → HttpResponse} {page : String} {st : FetchState}
    {fuel : Nat} {ls : List String} (h : st.cache.lookup page = some ls) :
    getLinksFromPage env page st fuel = some (Except.ok (ls, st)) := by
  unfold getLinksFromPage
  rw [h]

lemma getLinks_miss {env : Nat → HttpResponse} {page : String} {st : FetchState}
    {fuel : Nat} (h : st.cache.lookup page = none) :
    getLinksFromPage env page st fuel =
      match fetchPages env fuel st.requests st.waits [] with
      | none => none
      | some (Except.error e) => some (Except.error e)
      | some (Except.ok (raw, reqIdx', waits')) =>
        some (Except.ok (raw.filter (fun l => !(isDenylisted l)),
          { requests := reqIdx', waits := waits',
            cache := st.cache ++ [(page, raw.filter (fun l => !(isDenylisted l)))] })) := by
  unfold getLinksFromPage
  rw [h]

/-- C7: for a node already present in the cache, fetch returns exactly the
stored EdgeSet with the whole fetcher state unchanged — in particular zero
additional HTTP requests and zero waits — and any later fetch that succeeds
(of any node) leaves the stored entry in place unchanged: cached entries are
never refetched or replaced, so fetch is idempotent after the first success. -/
theorem c7_cached_fetch_idempotent (env env2 : Nat → HttpResponse)
    (page q : String) (st : FetchState) (ls : List String) (fuel fuel2 : Nat)
    (h : st.cache.lookup page = some ls) :
    getLinksFromPage env page st fuel = some (Except.ok (ls, st)) ∧
    (∀ (ls2 : List String) (st2 : FetchState),
      getLinksFromPage env2 q st fuel2 = some (Except.ok (ls2, st2)) →
      st2.cache.lookup page = some ls) := by
  refine ⟨getLinks_hit h, ?_⟩
  intro ls2 st2 h2
  cases hq : st.cache.lookup q with
  | some lsq =>
    rw [getLinks_hit hq] at h2
    simp only [Option.some.injEq, Except.ok.injEq, Prod.mk.injEq] at h2
    rw [← h2.2]
    exact h
  | none =>
    rw [getLinks_miss hq] at h2
    rcases hfp : fetchPages env2 fuel2 st.requests st.waits [] with _ | r
    · rw [hfp] at h2
      simp at h2
    · rcases r with e | ⟨raw, reqIdx', waits'⟩
      · rw [hfp] at h2
        simp at h2
      · rw [hfp] at h2
        simp only [Option.some.injEq, Except.ok.injEq, Prod.mk.injEq] at h2
        rw [← h2.2]
        exact lookup_append_some st.cache _ page ls h

/-- Witness for C7: page A is cached with EdgeSet [B]; fetching A returns it
unchanged, and a successful fetch of the fresh page Q preserves the entry. -/
theorem c7_cached_fetch_idempotent_witness :
    getLinksFromPage (fun _ => ⟨HttpStatus.ok, true, ["C"], false⟩) "A"
      { requests := 0, waits := [], cache := [("A", ["B"])] } 1 =
      some (Except.ok (["B"], { requests := 0, waits := [], cache := [("A", ["B"])] })) ∧
    (∀ (ls2 : List String) (st2 : FetchState),
      getLinksFromPage (fun _ => ⟨HttpStatus.ok, true, ["C"], false⟩) "Q"
        { requests := 0, waits := [], cache := [("A", ["B"])] } 1 =
        some (Except.ok (ls2, st2)) →
      st2.cache.lookup "A" = some ["B"]) :=
  c7_cached_fetch_idempotent (fun _ => ⟨HttpStatus.ok, true, ["C"], false⟩)
    (fun _ => ⟨HttpStatus.ok, true, ["C"], false⟩) "A" "Q"
    { requests := 0, waits := [], cache := [("A", ["B"])] } ["B"] 1 1 (by decide)

/-- C4 counterexample: a source page carrying the link [Portal:Food] (the
primary English form of the portal namespace, present in the spec-described
denylist) passes through the filter untouched, because the source denylist
has only the localized form [Portail:]. -/
theorem c4_counterexample_portal_survives :
    getLinksFromPage (fun _ => ⟨HttpStatus.ok, true, ["Portal:Food", "Paris"], false⟩)
      "Start" initFetchState 1 =
      some (Except.ok (["Portal:Food", "Paris"],
        { requests := 1, waits := [],
          cache := [("Start", ["Portal:Food", "Paris"])] })) ∧
    isSpecDenylisted "Portal:Food" = true ∧
    isDenylisted "Portal:Food" = false := by
  exact ⟨by decide, by decide, by decide⟩

/-- C4 (amended): the EdgeSet returned by a non-cached successful fetch
contains no title beginning with a prefix of the source denylist — which
covers the help, template, administrative, category and file namespaces in
both English and French forms, but the talk/discussion and portal namespaces
only in their French forms (`Discussion:`, `Portail:`). -/
theorem c4_fetch_filters_denylist (env : Nat → HttpResponse) (page : String)
    (st : FetchState) (fuel : Nat) (ls : List String) (st' : FetchState)
    (hmiss : st.cache.lookup page = none)
    (h : getLinksFromPage env page st fuel = some (Except.ok (ls, st'))) :
    ∀ l ∈ ls, isDenylisted l = false := by
  rw [getLinks_miss hmiss] at h
  rcases hfp : fetchPages env fuel st.requests st.waits [] with _ | r
  · rw [hfp] at h
    simp at h
  · rcases r with e | ⟨raw, reqIdx', waits'⟩
    · rw [hfp] at h
      simp at h
    · rw [hfp] at h
      simp only [Option.some.injEq, Except.ok.injEq, Prod.mk.injEq] at h
      intro l hl
      rw [← h.1] at hl
      have hmem := (List.mem_filter.mp hl).2
      simpa using hmem

/-- Witness for C4 (amended): a page carrying [Help:Stuff, Paris] yields the
EdgeSet [Paris], every element of which is clean of the denylist. -/
theorem c4_fetch_filters_denylist_witness :
    isDenylisted "Paris" = false :=
  c4_fetch_filters_denylist (fun _ => ⟨HttpStatus.ok, true, ["Help:Stuff", "Paris"], false⟩)
    "Start" initFetchState 1 ["Paris"]
    { requests := 1, waits := [], cache := [("Start", ["Paris"])] } rfl (by decide)
    "Paris" (by decide)

/-- C5: the throttling retry policy of one HTTP exchange. Each 429 response at
retry count a is followed by a wait of 2 ^ (a + 1) time units — attempt
starting at 1 — before the request is reissued (first conjunct); an exchange
whose first five responses are all 429 fails with the max-retries error after
the waits [2, 4, 8, 16, 32], and the whole fetch fails the same way (so six
or more consecutive 429s a fortiori cause that failure, the sixth response
never being requested); four 429s followed by a parseable 200 let the fetch
succeed, with the filtered EdgeSet stored in the cache. -/
theorem c5_throttling_retry_policy (envFail envOk : Nat → HttpResponse)
    (page : String) (fuel : Nat)
    (hf : ∀ i, i < 5 → (envFail i).status = HttpStatus.throttled)
    (ho4 : ∀ i, i < 4 → (envOk i).status = HttpStatus.throttled)
    (ho : (envOk 4).status = HttpStatus.ok)
    (hp : (envOk 4).parseOk = true)
    (hc : (envOk 4).hasContinue = false)
    (hfuel : 1 ≤ fuel) :
    (∀ (env : Nat → HttpResponse) (r a ri : Nat) (ws : List Nat),
        (env ri).status = HttpStatus.throttled →
        retryLoop env (r + 1) a ri ws =
          retryLoop env r (a + 1) (ri + 1) (ws ++ [2 ^ (a + 1)])) ∧
    singleExchange envFail 0 [] =
      (Except.error FetchError.maxRetriesExceeded, 5, [2, 4, 8, 16, 32]) ∧
    getLinksFromPage envFail page initFetchState fuel =
      some (Except.error FetchError.maxRetriesExceeded) ∧
    getLinksFromPage envOk page initFetchState fuel =
      some (Except.ok ((addLinks [] (envOk 4).links).filter (fun l => !(isDenylisted l)),
        { requests := 5, waits := [2, 4, 8, 16],
          cache := [(page,
            (addLinks [] (envOk 4).links).filter (fun l => !(isDenylisted l)))] })) := by
  have hgen : ∀ (env : Nat → HttpResponse) (r a ri : Nat) (ws : List Nat),
      (env ri).status = HttpStatus.throttled →
      retryLoop env (r + 1) a ri ws =
        retryLoop env r (a + 1) (ri + 1) (ws ++ [2 ^ (a + 1)]) := by
    intro env r a ri ws hth
    simp only [retryLoop, hth]
  have hexFail : singleExchange envFail 0 [] =
      (Except.error FetchError.maxRetriesExceeded, 5, [2, 4, 8, 16, 32]) := by
    have s0 := hgen envFail 4 0 0 [] (hf 0 (by omega))
    have s1 := hgen envFail 3 1 1 [2] (hf 1 (by omega))
    have s2 := hgen envFail 2 2 2 [2, 4] (hf 2 (by omega))
    have s3 := hgen envFail 1 3 3 [2, 4, 8] (hf 3 (by omega))
    have s4 := hgen envFail 0 4 4 [2, 4, 8, 16] (hf 4 (by omega))
    norm_num at s0 s1 s2 s3 s4
    rw [singleExchange, show maxRetries = 5 from rfl, s0, s1, s2, s3, s4]
    rfl
  have hexOk : singleExchange envOk 0 [] = (Except.ok (envOk 4), 5, [2, 4, 8, 16]) := by
    have s0 := hgen envOk 4 0 0 [] (ho4 0 (by omega))
    have s1 := hgen envOk 3 1 1 [2] (ho4 1 (by omega))
    have s2 := hgen envOk 2 2 2 [2, 4] (ho4 2 (by omega))
    have s3 := hgen envOk 1 3 3 [2, 4, 8] (ho4 3 (by omega))
    norm_num at s0 s1 s2 s3
    rw [singleExchange, show maxRetries = 5 from rfl, s0, s1, s2, s3]
    rw [show (1 : Nat) = 0 + 1 from rfl, retryLoop]
    simp only [ho, hp, if_true]
  obtain ⟨f, rfl⟩ : ∃ f, fuel = f + 1 := ⟨fuel - 1, by omega⟩
  have hmiss : initFetchState.cache.lookup page = none := rfl
  refine ⟨hgen, hexFail, ?_, ?_⟩
  · rw [getLinks_miss hmiss]
    have hreq : initFetchState.requests = 0 := rfl
    have hwts : initFetchState.waits = ([] : List Nat) := rfl
    rw [hreq, hwts]
    simp only [fetchPages, hexFail]
  · rw [getLinks_miss hmiss]
    have hreq : initFetchState.requests = 0 := rfl
    have hwts : initFetchState.waits = ([] : List Nat) := rfl
    rw [hreq, hwts]
    simp only [fetchPages, hexOk, hc]
    rfl

/-- Witness for C5: a source answering 429 forever makes the exchange fail
after waits [2, 4, 8, 16, 32] and the fetch fail; a source answering 429 four
times then 200 with links [Paris, Help:Stuff] lets the fetch succeed and
cache the filtered EdgeSet [Paris]. -/
theorem c5_throttling_retry_policy_witness :
    singleExchange (fun _ => ⟨HttpStatus.throttled, true, [], false⟩) 0 [] =
      (Except.error FetchError.maxRetriesExceeded, 5, [2, 4, 8, 16, 32]) ∧
    getLinksFromPage (fun _ => ⟨HttpStatus.throttled, true, [], false⟩) "X"
      initFetchState 1 = some (Except.error FetchError.maxRetriesExceeded) ∧
    getLinksFromPage (fun i => if i < 4 then ⟨HttpStatus.throttled, true, [], false⟩
        else ⟨HttpStatus.ok, true, ["Paris", "Help:Stuff"], false⟩) "X"
      initFetchState 1 =
      some (Except.ok (["Paris"],
        { requests := 5, waits := [2, 4, 8, 16], cache := [("X", ["Paris"])] })) := by
  have h := c5_throttling_retry_policy
    (fun _ => ⟨HttpStatus.throttled, true, [], false⟩)
    (fun i => if i < 4 then ⟨HttpStatus.throttled, true, [], false⟩
      else ⟨HttpStatus.ok, true, ["Paris", "Help:Stuff"], false⟩)
    "X" 1 (fun _ _ => rfl) (fun i hi => by simp [hi]) (by norm_num) (by norm_num)
    (by norm_num) (by omega)
  refine ⟨h.2.1, h.2.2.1, ?_⟩
  rw [h.2.2.2]
  decide
